import Mathlib

/-!
Verification development for the `ecromaneli-golang/console` logging library.

The development shallowly embeds the asynchronous write subsystem
(`logger/async/writer.go`) and the logger output state machine
(`logger/logger.go`):

* `Spec2Proof.Async` models an `AsyncWriter` value together with the
  contents its target sink has received.  The producer-side `Write`, the
  drain goroutine `processWrites`, `Flush` and `Close` become transition
  functions on that state; concurrency between the caller and the drain
  goroutine is modelled by an explicit event trace (`Ev`, `run`), so that
  properties are proved over every interleaving of caller operations and
  drain steps.
* `Spec2Proof.AsyncHeap` re-embeds `Write` at the level of byte-buffer
  references, so that the defensive copy performed by `Write` (lines
  46-48 of writer.go) and its consequence for callers that reuse their
  buffer can be stated.
* `Spec2Proof.LoggerSM` models the logger's `SetOutput` /
  `SetAsyncOutput` / `SetAsync` / `SetSync` transitions over a sink that
  is either a raw writer or an `AsyncWriter` wrapping one.

Bytes are `Nat`, payloads are `List Nat`, and a sink's received content is
the flat list of bytes it has been handed, in order.
-/

namespace Spec2Proof

namespace Async

/-- Errors a write can report.  `closedWriter` stands for the
`io.ErrClosedPipe` value returned by `AsyncWriter.Write` on a closed
writer; `targetErr c` stands for an arbitrary error value returned by the
target sink's own `Write`. -/
inductive WErr where
  | closedWriter
  | targetErr (code : Nat)
deriving DecidableEq, Repr

/-- State of one `AsyncWriter` (writer.go, lines 9-17) together with the
bytes its target has received.

* `queue` models the buffered channel `dataCh` contents, oldest first;
* `bufSize` models the `bufSize` field (the channel capacity);
* `closed`, `forceClosed` model the homonymous flags;
* `doneSignaled` records that the `done` channel has been closed;
* `terminated` records that the `processWrites` goroutine has returned
  (the condition under which `wg.Wait` in `Flush` unblocks);
* `received` is the flat sequence of bytes the target writer has been
  handed, in order. -/
structure WriterSt where
  queue : List (List Nat)
  bufSize : Nat
  closed : Bool
  forceClosed : Bool
  doneSignaled : Bool
  terminated : Bool
  received : List Nat
deriving DecidableEq, Repr

/-- `NewAsyncWriter` (writer.go, lines 21-37): a buffer size of at most 0
is replaced by the default 100; the writer starts open, with an empty
queue and a freshly started drain goroutine. -/
def newAsyncWriter (bufferSize : Int) : WriterSt :=
  { queue := []
    bufSize := if bufferSize ≤ 0 then 100 else bufferSize.toNat
    closed := false
    forceClosed := false
    doneSignaled := false
    terminated := false
    received := [] }

/-- `AsyncWriter.Write` (writer.go, lines 40-58), for a target sink that
accepts every byte.  A closed writer rejects the call with
`closedWriter` and no state change.  Otherwise the non-blocking send on
`dataCh` succeeds exactly when the channel has room (`queue.length <
bufSize`); on a full channel the payload goes directly and synchronously
to the target. -/
def writeFn (st : WriterSt) (p : List Nat) : WriterSt × Nat × Option WErr :=
  if st.closed then
    (st, 0, some .closedWriter)
  else if st.queue.length < st.bufSize then
    ({ st with queue := st.queue ++ [p] }, p.length, none)
  else
    ({ st with received := st.received ++ p }, p.length, none)

/-- One iteration of the drain loop taking the `data := <-w.dataCh`
branch of the select (writer.go, lines 66-67): the oldest queued entry is
written to the target.  The branch is only reachable while the goroutine
is still running. -/
def drainData (st : WriterSt) : WriterSt :=
  if st.terminated then st
  else
    match st.queue with
    | [] => st
    | d :: rest => { st with queue := rest, received := st.received ++ d }

/-- The drain loop taking the `<-w.done` branch of the select
(writer.go, lines 68-76): only enabled once `done` has been closed.  The
channel is closed; unless the writer was force-closed, every entry still
queued is written to the target in order; then the goroutine returns. -/
def drainDone (st : WriterSt) : WriterSt :=
  if st.doneSignaled ∧ ¬st.terminated then
    if st.forceClosed then
      { st with queue := [], terminated := true }
    else
      { st with queue := [], received := st.received ++ st.queue.flatten,
                terminated := true }
  else st

/-- The state change performed by `Flush` (writer.go, lines 82-88)
before it blocks in `wg.Wait`: on an open writer it sets `closed` and
closes `done`; on a closed writer it does nothing.  The blocking itself
is captured by theorems that look at the trace point where `terminated`
has become true. -/
def flushFn (st : WriterSt) : WriterSt :=
  if st.closed then st
  else { st with closed := true, doneSignaled := true }

/-- `Close` (writer.go, lines 91-97): on an open writer it sets
`closed` and `forceClosed` and closes `done`, without waiting; on a
closed writer it does nothing. -/
def closeFn (st : WriterSt) : WriterSt :=
  if st.closed then st
  else { st with closed := true, forceClosed := true, doneSignaled := true }

/-- Events of one writer's history: producer calls interleaved with the
steps of its drain goroutine. -/
inductive Ev where
  | write (p : List Nat)
  | drainData
  | drainDone
  | flush
  | close
deriving DecidableEq, Repr

/-- Effect of one event on the writer state. -/
def stepEv (st : WriterSt) : Ev → WriterSt
  | .write p => (writeFn st p).1
  | .drainData => drainData st
  | .drainDone => drainDone st
  | .flush => flushFn st
  | .close => closeFn st

/-- Run a trace of events. -/
def run (st : WriterSt) : List Ev → WriterSt
  | [] => st
  | e :: es => run (stepEv st e) es

/-- The payloads submitted by the write events of a trace, in order. -/
def writesOf (es : List Ev) : List (List Nat) :=
  es.filterMap fun e =>
    match e with
    | .write p => some p
    | _ => none

/-- Traces made only of producer writes and drain-goroutine steps (no
flush, no close). -/
def writesAndDrainsOnly (es : List Ev) : Bool :=
  es.all fun e =>
    match e with
    | .flush => false
    | .close => false
    | _ => true

theorem run_append (st : WriterSt) (es₁ es₂ : List Ev) :
    run st (es₁ ++ es₂) = run (run st es₁) es₂ := by
  induction es₁ generalizing st with
  | nil => rfl
  | cons e es ih => simp [run, ih]

theorem stepEv_bufSize (st : WriterSt) (e : Ev) :
    (stepEv st e).bufSize = st.bufSize := by
  cases e <;>
    simp only [stepEv, writeFn, Async.drainData, Async.drainDone, flushFn, closeFn] <;>
    repeat first | rfl | split

theorem run_bufSize (st : WriterSt) (es : List Ev) :
    (run st es).bufSize = st.bufSize := by
  induction es generalizing st with
  | nil => rfl
  | cons e es ih => rw [run, ih, stepEv_bufSize]

theorem stepEv_closed_mono (st : WriterSt) (e : Ev) (h : st.closed = true) :
    (stepEv st e).closed = true := by
  cases e <;>
    simp only [stepEv, writeFn, Async.drainData, Async.drainDone, flushFn, closeFn, h] <;>
    repeat first | assumption | rfl | split

theorem run_closed_mono (st : WriterSt) (es : List Ev) (h : st.closed = true) :
    (run st es).closed = true := by
  induction es generalizing st with
  | nil => exact h
  | cons e es ih => exact ih _ (stepEv_closed_mono st e h)

theorem stepEv_queue_le (st : WriterSt) (e : Ev)
    (h : st.queue.length ≤ st.bufSize) :
    (stepEv st e).queue.length ≤ (stepEv st e).bufSize := by
  rw [stepEv_bufSize]
  cases e <;>
    simp only [stepEv, writeFn, Async.drainData, Async.drainDone, flushFn, closeFn]
  case write p =>
    split
    · exact h
    · split
      · next hlt => simpa using hlt
      · exact h
  case drainData =>
    split
    · exact h
    · split
      · exact h
      · next d rest hq =>
        rw [hq] at h
        simp only [List.length_cons] at h
        show rest.length ≤ st.bufSize
        omega
  case drainDone =>
    split
    · split <;> simp
    · exact h
  case flush => split <;> exact h
  case close => split <;> exact h

/-- Capacity invariant: the queue never grows past the configured
capacity along any trace. -/
theorem run_queue_le (st : WriterSt) (es : List Ev)
    (h : st.queue.length ≤ st.bufSize) :
    (run st es).queue.length ≤ (run st es).bufSize := by
  induction es generalizing st with
  | nil => exact h
  | cons e es ih =>
    exact ih _ (stepEv_queue_le st e h)

/-- The payload an event contributes to the target-visible byte budget. -/
def payloadOf : Ev → List Nat
  | .write p => p
  | _ => []

theorem stepEv_bytes_le (st : WriterSt) (e : Ev) :
    (stepEv st e).received.length + (stepEv st e).queue.flatten.length ≤
      st.received.length + st.queue.flatten.length + (payloadOf e).length := by
  cases e <;>
    simp only [stepEv, writeFn, Async.drainData, Async.drainDone, flushFn, closeFn,
      payloadOf]
  case write p =>
    split
    · simp
    · split <;> simp <;> omega
  case drainData =>
    split
    · simp
    · split
      · simp
      · next d rest hq =>
        rw [hq]
        simp
        omega
  case drainDone =>
    split
    · split <;> simp
    · simp
  case flush => split <;> simp
  case close => split <;> simp

theorem writesOf_cons_write (p : List Nat) (es : List Ev) :
    writesOf (.write p :: es) = p :: writesOf es := by
  simp [writesOf]

theorem run_bytes_le (st : WriterSt) (es : List Ev) :
    (run st es).received.length + (run st es).queue.flatten.length ≤
      st.received.length + st.queue.flatten.length + (writesOf es).flatten.length := by
  induction es generalizing st with
  | nil => simp [run, writesOf]
  | cons e es ih =>
    have h1 := ih (stepEv st e)
    have h2 := stepEv_bytes_le st e
    have h3 : (writesOf (e :: es)).flatten.length
        = (payloadOf e).length + (writesOf es).flatten.length := by
      cases e <;> simp [writesOf, payloadOf]
    rw [run, h3]
    omega

/-- Model of `AsyncWriter.Write` with the target sink's response made
explicit: on the full-queue fallback path the result of
`w.target.Write(p)` (writer.go, line 56) — `tgtRes.1` bytes written plus
an optional error — is returned as the result of `Write` itself, and the
target is handed the bytes it accepted during the call. -/
def writeTgt (st : WriterSt) (p : List Nat) (tgtRes : Nat × Option WErr) :
    WriterSt × Nat × Option WErr :=
  if st.closed then
    (st, 0, some .closedWriter)
  else if st.queue.length < st.bufSize then
    ({ st with queue := st.queue ++ [p] }, p.length, none)
  else
    ({ st with received := st.received ++ p.take tgtRes.1 }, tgtRes)

/-- One drain-loop data step with the target sink's response made
explicit: `processWrites` discards both results of
`w.target.Write(data)` (writer.go, line 67), so the error component is
received by no one. -/
def drainDataTgt (st : WriterSt) (tgtRes : Nat × Option WErr) : WriterSt :=
  if st.terminated then st
  else
    match st.queue with
    | [] => st
    | d :: rest => { st with queue := rest, received := st.received ++ d.take tgtRes.1 }

theorem writeTgt_of_fullWrite (st : WriterSt) (p : List Nat) :
    writeTgt st p (p.length, none) = writeFn st p := by
  unfold writeTgt writeFn
  split_ifs <;> simp

/-- C4: once `Flush` or `Close` has run on an `AsyncWriter`, every later
`Write` call — after arbitrarily many further events — returns the
`closedWriter` error with zero bytes accepted and leaves the writer state
(its queue and the bytes at the target) completely unchanged. -/
theorem write_after_flush_or_close (st : WriterSt) (es : List Ev) (p : List Nat) :
    writeFn (run (flushFn st) es) p = (run (flushFn st) es, 0, some WErr.closedWriter)
  ∧ writeFn (run (closeFn st) es) p = (run (closeFn st) es, 0, some WErr.closedWriter) := by
  have hf : (flushFn st).closed = true := by
    unfold flushFn; split <;> simp_all
  have hc : (closeFn st).closed = true := by
    unfold closeFn; split <;> simp_all
  constructor
  · rw [writeFn]
    simp [run_closed_mono _ es hf]
  · rw [writeFn]
    simp [run_closed_mono _ es hc]

/-- C9: `NewAsyncWriter` normalizes a buffer size of at most 0 to the
default capacity 100 and otherwise uses the requested size; the fresh
writer is open with an empty queue; and along every event trace the
queue length never exceeds the configured capacity. -/
theorem newAsyncWriter_capacity (bufferSize : Int) (es : List Ev) :
    (newAsyncWriter bufferSize).bufSize
        = (if bufferSize ≤ 0 then 100 else bufferSize.toNat)
  ∧ (newAsyncWriter bufferSize).closed = false
  ∧ (newAsyncWriter bufferSize).queue = []
  ∧ (run (newAsyncWriter bufferSize) es).queue.length
        ≤ (newAsyncWriter bufferSize).bufSize := by
  refine ⟨rfl, rfl, rfl, ?_⟩
  have h := run_queue_le (newAsyncWriter bufferSize) es (by simp [newAsyncWriter])
  rwa [run_bufSize] at h

/-- C10: `Flush` invoked after `Close` is a complete no-op — both guard on
the one `closed` flag, which `Close` has already set — so it returns at
once, writes none of the still-queued entries to the target, and behaves
as `Close` alone. -/
theorem flush_after_close_noop (st : WriterSt) :
    flushFn (closeFn st) = closeFn st
  ∧ (closeFn st).closed = true
  ∧ (flushFn (closeFn st)).received = st.received
  ∧ (flushFn (closeFn st)).queue = st.queue := by
  have h1 : (closeFn st).closed = true := by
    unfold closeFn; split <;> simp_all
  have h2 : flushFn (closeFn st) = closeFn st := by
    unfold flushFn; simp [h1]
  have h3 : (closeFn st).received = st.received := by
    unfold closeFn; split <;> rfl
  have h4 : (closeFn st).queue = st.queue := by
    unfold closeFn; split <;> rfl
  exact ⟨h2, h1, by rw [h2, h3], by rw [h2, h4]⟩

/-- C6: `Close` is idempotent; it only raises flags — it drains nothing,
hands the target nothing, and does not wait for the drain goroutine
(`terminated` is untouched, so the caller never blocks); on an open
writer it signals shutdown, after which the goroutine's `done` branch
discards the whole queue without writing it; and along every trace of a
fresh writer the bytes received by the target never exceed the bytes
submitted via `Write`. -/
theorem close_discards_and_bounds (st : WriterSt) (q : List (List Nat)) (b : Nat)
    (fc ds : Bool) (r : List Nat) (bufferSize : Int) (es : List Ev) :
    closeFn (closeFn st) = closeFn st
  ∧ (closeFn st).received = st.received
  ∧ (closeFn st).queue = st.queue
  ∧ (closeFn st).terminated = st.terminated
  ∧ closeFn ⟨q, b, false, fc, ds, false, r⟩ = ⟨q, b, true, true, true, false, r⟩
  ∧ Async.drainDone (closeFn ⟨q, b, false, fc, ds, false, r⟩)
        = ⟨[], b, true, true, true, true, r⟩
  ∧ (run (newAsyncWriter bufferSize) es).received.length
        ≤ (writesOf es).flatten.length := by
  refine ⟨?_, ?_, ?_, ?_, ?_, ?_, ?_⟩
  · by_cases h : st.closed = true <;> simp [closeFn, h]
  · unfold closeFn; split <;> rfl
  · unfold closeFn; split <;> rfl
  · unfold closeFn; split <;> rfl
  · simp [closeFn]
  · simp [closeFn, Async.drainDone]
  · have h := run_bytes_le (newAsyncWriter bufferSize) es
    simp only [newAsyncWriter, List.length_nil, List.flatten_nil] at h ⊢
    omega

/-- C5: a `Write` on an open writer whose queue is full bypasses the
queue, hands the payload synchronously to the target during the call,
and returns the target's own result — bytes written and error — to the
caller; whereas a target response to a drain-goroutine write is
discarded: the drain step's outcome is identical for any two error
values, and no caller receives them. -/
theorem direct_write_propagates (st : WriterSt) (p : List Nat) (r : Nat × Option WErr)
    (hcl : st.closed = false) (hfull : st.bufSize ≤ st.queue.length) :
    (writeTgt st p r).2 = r
  ∧ (writeTgt st p r).1.queue = st.queue
  ∧ (writeTgt st p r).1.received = st.received ++ p.take r.1
  ∧ (∀ (st' : WriterSt) (n : Nat) (e₁ e₂ : Option WErr),
      drainDataTgt st' (n, e₁) = drainDataTgt st' (n, e₂)) := by
  have hnot : ¬ st.queue.length < st.bufSize := by omega
  refine ⟨?_, ?_, ?_, ?_⟩
  · simp [writeTgt, hcl, hnot]
  · simp [writeTgt, hcl, hnot]
  · simp [writeTgt, hcl, hnot]
  · intro st' n e₁ e₂
    rfl

/-- Witness for C5 at a concrete writer with a full one-slot queue. -/
theorem direct_write_propagates_witness :
    (writeTgt ⟨[[1]], 1, false, false, false, false, []⟩ [7, 8]
        (2, some (WErr.targetErr 3))).2 = (2, some (WErr.targetErr 3)) :=
  (direct_write_propagates ⟨[[1]], 1, false, false, false, false, []⟩ [7, 8]
      (2, some (WErr.targetErr 3)) (by decide) (by decide)).1

/-- Open-phase invariant: along a trace of writes and drain steps that
fits in the queue capacity, the writer stays open and the bytes at the
target followed by the queued bytes are exactly the submitted bytes in
submission order. -/
theorem run_open_phase (es : List Ev) (st : WriterSt)
    (hwd : writesAndDrainsOnly es = true)
    (hcl : st.closed = false) (hfc : st.forceClosed = false)
    (hds : st.doneSignaled = false) (ht : st.terminated = false)
    (hcap : st.queue.length + (writesOf es).length ≤ st.bufSize) :
    (run st es).closed = false ∧ (run st es).forceClosed = false ∧
    (run st es).doneSignaled = false ∧ (run st es).terminated = false ∧
    (run st es).received ++ (run st es).queue.flatten
      = st.received ++ st.queue.flatten ++ (writesOf es).flatten := by
  induction es generalizing st with
  | nil => simp [run, writesOf, hcl, hfc, hds, ht]
  | cons e es ih =>
    cases e with
    | write p =>
      have hwd' : writesAndDrainsOnly es = true := by
        simpa [writesAndDrainsOnly] using hwd
      have hlt : st.queue.length < st.bufSize := by
        rw [writesOf_cons_write] at hcap
        simp only [List.length_cons] at hcap
        omega
      have hstep : stepEv st (.write p) = { st with queue := st.queue ++ [p] } := by
        simp [stepEv, writeFn, hcl, hlt]
      have hcap' : (st.queue ++ [p]).length + (writesOf es).length ≤ st.bufSize := by
        rw [writesOf_cons_write] at hcap
        simp only [List.length_append, List.length_cons, List.length_nil] at hcap ⊢
        omega
      rw [run, hstep]
      obtain ⟨c1, c2, c3, c4, c5⟩ :=
        ih { st with queue := st.queue ++ [p] } hwd' hcl hfc hds ht hcap'
      refine ⟨c1, c2, c3, c4, ?_⟩
      rw [c5, writesOf_cons_write]
      simp [List.append_assoc]
    | drainData =>
      have hwd' : writesAndDrainsOnly es = true := by
        simpa [writesAndDrainsOnly] using hwd
      have hw0 : writesOf (Ev.drainData :: es) = writesOf es := by simp [writesOf]
      have hcap₀ : st.queue.length + (writesOf es).length ≤ st.bufSize := by
        rw [hw0] at hcap
        exact hcap
      cases hq : st.queue with
      | nil =>
        have hstep : stepEv st .drainData = st := by
          simp [stepEv, Async.drainData, ht, hq]
        rw [run, hstep]
        obtain ⟨c1, c2, c3, c4, c5⟩ := ih st hwd' hcl hfc hds ht hcap₀
        refine ⟨c1, c2, c3, c4, ?_⟩
        rw [c5, hq, hw0]
      | cons d rest =>
        have hstep : stepEv st .drainData
            = { st with queue := rest, received := st.received ++ d } := by
          simp [stepEv, Async.drainData, ht, hq]
        have hcap' : rest.length + (writesOf es).length ≤ st.bufSize := by
          rw [hq] at hcap₀
          simp only [List.length_cons] at hcap₀
          omega
        rw [run, hstep]
        obtain ⟨c1, c2, c3, c4, c5⟩ :=
          ih { st with queue := rest, received := st.received ++ d }
            hwd' hcl hfc hds ht hcap'
        refine ⟨c1, c2, c3, c4, ?_⟩
        rw [c5, hw0]
        simp [List.append_assoc]
    | drainDone =>
      have hwd' : writesAndDrainsOnly es = true := by
        simpa [writesAndDrainsOnly] using hwd
      have hstep : stepEv st .drainDone = st := by
        simp [stepEv, Async.drainDone, hds]
      rw [run, hstep,
        show writesOf (Ev.drainDone :: es) = writesOf es from by simp [writesOf]]
        at *
      exact ih st hwd' hcl hfc hds ht hcap
    | flush => simp [writesAndDrainsOnly] at hwd
    | close => simp [writesAndDrainsOnly] at hwd

/-- Closing-phase invariant: once `closed` and `doneSignaled` hold with
no force-close, every further event preserves the total content
(target bytes followed by queued bytes), and whenever the drain
goroutine has terminated the queue is empty. -/
theorem run_closing_phase (es : List Ev) (st : WriterSt)
    (hcl : st.closed = true) (hfc : st.forceClosed = false)
    (hds : st.doneSignaled = true)
    (hqt : st.terminated = true → st.queue = []) :
    (run st es).closed = true ∧ (run st es).forceClosed = false ∧
    (run st es).doneSignaled = true ∧
    ((run st es).terminated = true → (run st es).queue = []) ∧
    (run st es).received ++ (run st es).queue.flatten
      = st.received ++ st.queue.flatten := by
  induction es generalizing st with
  | nil => exact ⟨hcl, hfc, hds, hqt, rfl⟩
  | cons e es ih =>
    cases e with
    | write p =>
      have hstep : stepEv st (.write p) = st := by
        simp [stepEv, writeFn, hcl]
      rw [run, hstep]
      exact ih st hcl hfc hds hqt
    | drainData =>
      by_cases hterm : st.terminated = true
      · have hstep : stepEv st .drainData = st := by
          simp [stepEv, Async.drainData, hterm]
        rw [run, hstep]
        exact ih st hcl hfc hds hqt
      · cases hq : st.queue with
        | nil =>
          have hstep : stepEv st .drainData = st := by
            simp [stepEv, Async.drainData, hterm, hq]
          rw [run, hstep]
          obtain ⟨c1, c2, c3, c4, c5⟩ := ih st hcl hfc hds hqt
          refine ⟨c1, c2, c3, c4, ?_⟩
          rw [c5, hq]
        | cons d rest =>
          have hstep : stepEv st .drainData
              = { st with queue := rest, received := st.received ++ d } := by
            simp [stepEv, Async.drainData, hterm, hq]
          rw [run, hstep]
          obtain ⟨c1, c2, c3, c4, c5⟩ :=
            ih { st with queue := rest, received := st.received ++ d }
              hcl hfc hds (by intro h; simp only [] at h; exact absurd h hterm)
          refine ⟨c1, c2, c3, c4, ?_⟩
          rw [c5]
          simp [List.append_assoc]
    | drainDone =>
      by_cases hterm : st.terminated = true
      · have hstep : stepEv st .drainDone = st := by
          simp [stepEv, Async.drainDone, hterm]
        rw [run, hstep]
        exact ih st hcl hfc hds hqt
      · have hstep : stepEv st .drainDone
            = { st with queue := [], received := st.received ++ st.queue.flatten,
                        terminated := true } := by
          simp [stepEv, Async.drainDone, hds, hterm, hfc]
        rw [run, hstep]
        obtain ⟨c1, c2, c3, c4, c5⟩ :=
          ih { st with queue := [], received := st.received ++ st.queue.flatten,
                       terminated := true }
            hcl hfc hds (by intro _; rfl)
        refine ⟨c1, c2, c3, c4, ?_⟩
        rw [c5]
        simp
    | flush =>
      have hstep : stepEv st .flush = st := by
        simp [stepEv, flushFn, hcl]
      rw [run, hstep]
      exact ih st hcl hfc hds hqt
    | close =>
      have hstep : stepEv st .close = st := by
        simp [stepEv, closeFn, hcl]
      rw [run, hstep]
      exact ih st hcl hfc hds hqt

theorem flushFn_of_closed (st : WriterSt) (h : st.closed = true) :
    flushFn st = st := by
  unfold flushFn
  simp [h]

/-- C3: for any buffer size B ≥ 1 and any trace of N ≤ B sequential
writes on a fresh writer (freely interleaved with drain-goroutine
steps), followed by `Flush`: at the point where the drain goroutine has
terminated — the condition under which the blocking `wg.Wait` inside the
first `Flush` returns — the target has received exactly the
concatenation of all submitted payloads in submission order, the writer
is marked closed, one `drainDone` step suffices to reach that point, and
any subsequent `Flush` is a no-op. -/
theorem flush_delivers_exact_concatenation (bufferSize : Int) (es₁ es₂ : List Ev)
    (hB : 1 ≤ bufferSize)
    (hwd : writesAndDrainsOnly es₁ = true)
    (hN : (writesOf es₁).length ≤ bufferSize.toNat)
    (hterm : (run (flushFn (run (newAsyncWriter bufferSize) es₁)) es₂).terminated
        = true) :
    (run (flushFn (run (newAsyncWriter bufferSize) es₁)) es₂).received
        = (writesOf es₁).flatten
  ∧ (run (flushFn (run (newAsyncWriter bufferSize) es₁)) es₂).closed = true
  ∧ (run (flushFn (run (newAsyncWriter bufferSize) es₁)) [Ev.drainDone]).terminated
        = true
  ∧ flushFn (run (flushFn (run (newAsyncWriter bufferSize) es₁)) es₂)
        = run (flushFn (run (newAsyncWriter bufferSize) es₁)) es₂ := by
  have hcap : (newAsyncWriter bufferSize).queue.length + (writesOf es₁).length
      ≤ (newAsyncWriter bufferSize).bufSize := by
    have : ¬ bufferSize ≤ 0 := by omega
    simp [newAsyncWriter, this]
    exact hN
  obtain ⟨o1, o2, o3, o4, o5⟩ :=
    run_open_phase es₁ (newAsyncWriter bufferSize) hwd rfl rfl rfl rfl hcap
  have o5' : (run (newAsyncWriter bufferSize) es₁).received
      ++ (run (newAsyncWriter bufferSize) es₁).queue.flatten
      = (writesOf es₁).flatten := by
    rw [o5]
    simp [newAsyncWriter]
  have hflush : flushFn (run (newAsyncWriter bufferSize) es₁)
      = { run (newAsyncWriter bufferSize) es₁ with
            closed := true, doneSignaled := true } := by
    simp [flushFn, o1]
  obtain ⟨c1, c2, c3, c4, c5⟩ :=
    run_closing_phase es₂ (flushFn (run (newAsyncWriter bufferSize) es₁))
      (by rw [hflush]) (by rw [hflush]; exact o2) (by rw [hflush])
      (by rw [hflush]; intro h; simp only [] at h; rw [o4] at h; cases h)
  have c5' : (run (flushFn (run (newAsyncWriter bufferSize) es₁)) es₂).received
      ++ (run (flushFn (run (newAsyncWriter bufferSize) es₁)) es₂).queue.flatten
      = (writesOf es₁).flatten := by
    rw [c5, hflush]
    exact o5'
  refine ⟨?_, c1, ?_, ?_⟩
  · have hq := c4 hterm
    rw [hq] at c5'
    simpa using c5'
  · show (stepEv (flushFn (run (newAsyncWriter bufferSize) es₁)) .drainDone).terminated
        = true
    rw [hflush]
    simp [stepEv, Async.drainDone, o4, o2]
  · exact flushFn_of_closed _ c1

/-- Witness for C3: buffer size 2, two writes with an interleaved drain
step, then the flush signal and the final drain-goroutine step. -/
theorem flush_delivers_exact_concatenation_witness :
    (run (flushFn (run (newAsyncWriter 2) [Ev.write [1], Ev.drainData, Ev.write [2, 3]]))
        [Ev.drainDone]).received = [1, 2, 3] :=
  (flush_delivers_exact_concatenation 2 [Ev.write [1], Ev.drainData, Ev.write [2, 3]]
      [Ev.drainDone] (by decide) (by decide) (by decide) (by decide)).1

/-- Scratch check. -/
example :
    (run (newAsyncWriter 2) [.write [1], .write [2], .flush, .drainDone]).received
      = [1, 2] := by decide

example :
    (run (newAsyncWriter 2) [.write [1], .write [2], .close, .drainDone]).received
      = [] := by decide

example :
    (writeFn (run (newAsyncWriter 2) [.write [1], .close]) [9]).2
      = (0, some .closedWriter) := by decide

end Async

namespace AsyncHeap

/-- A heap of byte buffers: Go slices are references, so the channel
entries and the caller's payload are addresses into this heap.
Addresses are indices; `bufAt` dereferences one. -/
abbrev Heap := List (List Nat)

/-- Dereference a buffer address. -/
def bufAt (h : Heap) (a : Nat) : List Nat := h.getD a []

/-- Producer-visible state of an `AsyncWriter` at the buffer-reference
level: the channel holds buffer addresses, and `received` lists the
byte-buffer values handed to the target, in order (an `io.Writer` must
not retain the slice past the call, so the target keeps values, not
addresses). -/
structure HWriter where
  queue : List Nat
  bufSize : Nat
  closed : Bool
  received : List (List Nat)
deriving DecidableEq, Repr

/-- Result of one `Write` call at this level. -/
structure HRes where
  heap : Heap
  st : HWriter
  res : Nat × Option Async.WErr
deriving DecidableEq, Repr

/-- `AsyncWriter.Write` (writer.go, lines 40-58) at the buffer-reference
level.  A non-closed writer first allocates a fresh buffer holding a
copy of the payload value (`data := make([]byte, length); copy(data, p)`,
lines 46-48); the non-blocking send queues the address of that copy; on
a full channel the original payload buffer `p` is dereferenced and its
value handed synchronously to the target (line 56). -/
def hWrite (h : Heap) (st : HWriter) (p : Nat) : HRes :=
  if st.closed then
    ⟨h, st, (0, some .closedWriter)⟩
  else
    let v := bufAt h p
    let h' := h ++ [v]
    if st.queue.length < st.bufSize then
      ⟨h', { st with queue := st.queue ++ [h.length] }, (v.length, none)⟩
    else
      ⟨h', { st with received := st.received ++ [bufAt h' p] }, (v.length, none)⟩

/-- The caller mutating or reusing one of its buffers after `Write`
returned. -/
def mutateBuf (h : Heap) (a : Nat) (v : List Nat) : Heap := h.set a v

/-- The drain goroutine consuming a list of queued addresses in order,
dereferencing each at drain time. -/
def hDrainList (h : Heap) (rec : List (List Nat)) : List Nat → List (List Nat)
  | [] => rec
  | a :: rest => hDrainList h (rec ++ [bufAt h a]) rest

/-- Drain every queued entry to the target. -/
def hDrainAll (h : Heap) (st : HWriter) : HWriter :=
  { st with queue := [], received := hDrainList h st.received st.queue }

theorem hDrainList_eq (h : Heap) (rec : List (List Nat)) (q : List Nat) :
    hDrainList h rec q = rec ++ q.map (fun a => bufAt h a) := by
  induction q generalizing rec with
  | nil => simp [hDrainList]
  | cons a rest ih => simp [hDrainList, ih]

theorem bufAt_append_len (h : Heap) (v : List Nat) :
    bufAt (h ++ [v]) h.length = v := by
  induction h with
  | nil => rfl
  | cons x xs ih =>
    simpa only [bufAt, List.cons_append, List.length_cons, List.getD_cons_succ]
      using ih

theorem bufAt_append_of_lt (h : Heap) (v : List Nat) (a : Nat) (ha : a < h.length) :
    bufAt (h ++ [v]) a = bufAt h a := by
  induction h generalizing a with
  | nil => simp at ha
  | cons x xs ih =>
    cases a with
    | zero => rfl
    | succ n =>
      have hn : n < xs.length := by simpa using ha
      simpa only [bufAt, List.cons_append, List.getD_cons_succ] using ih n hn

theorem bufAt_set_ne (h : Heap) (a b : Nat) (v : List Nat) (hab : a ≠ b) :
    bufAt (h.set a v) b = bufAt h b := by
  induction h generalizing a b with
  | nil => rfl
  | cons x xs ih =>
    cases a with
    | zero =>
      cases b with
      | zero => exact absurd rfl hab
      | succ m => rfl
    | succ n =>
      cases b with
      | zero => rfl
      | succ m =>
        simpa only [bufAt, List.set_cons_succ, List.getD_cons_succ]
          using ih n m (by omega)

/-- C2: `Write` on an open writer copies the payload before queuing or
direct-writing.  Enqueue path: the queued address is a fresh buffer
holding the payload's call-time value, so after the caller overwrites
its own buffer the drain goroutine still delivers the call-time value to
the target.  Full-queue path: the call-time value is handed to the
target synchronously during the `Write` call itself, before the caller
can reuse the buffer. -/
theorem write_copies_payload (h : Heap) (st : HWriter) (p : Nat) (v' : List Nat)
    (hp : p < h.length) (hcl : st.closed = false) :
    (st.queue.length < st.bufSize →
      (hWrite h st p).st.queue = st.queue ++ [h.length]
      ∧ (hWrite h st p).heap = h ++ [bufAt h p]
      ∧ (hDrainAll (mutateBuf (hWrite h st p).heap p v') (hWrite h st p).st).received
          = st.received
              ++ st.queue.map (fun a => bufAt (mutateBuf (hWrite h st p).heap p v') a)
              ++ [bufAt h p])
  ∧ (st.bufSize ≤ st.queue.length →
      (hWrite h st p).st.received = st.received ++ [bufAt h p]
      ∧ (hWrite h st p).st.queue = st.queue) := by
  constructor
  · intro hlt
    have hw : hWrite h st p
        = ⟨h ++ [bufAt h p], { st with queue := st.queue ++ [h.length] },
            ((bufAt h p).length, none)⟩ := by
      simp [hWrite, hcl, hlt]
    refine ⟨by rw [hw], by rw [hw], ?_⟩
    rw [hw]
    show (hDrainAll (mutateBuf (h ++ [bufAt h p]) p v')
        { st with queue := st.queue ++ [h.length] }).received = _
    rw [hDrainAll, hDrainList_eq]
    have e1 : bufAt (mutateBuf (h ++ [bufAt h p]) p v') h.length = bufAt h p := by
      rw [mutateBuf, bufAt_set_ne _ _ _ _ (by omega), bufAt_append_len]
    simp only [List.map_append, List.map_cons, List.map_nil, e1]
    simp [List.append_assoc]
  · intro hge
    have hnlt : ¬ st.queue.length < st.bufSize := by omega
    have hw : hWrite h st p
        = ⟨h ++ [bufAt h p],
            { st with received := st.received ++ [bufAt (h ++ [bufAt h p]) p] },
            ((bufAt h p).length, none)⟩ := by
      simp [hWrite, hcl, hnlt]
    rw [hw]
    exact ⟨by rw [bufAt_append_of_lt h _ p hp], rfl⟩

/-- Witness for C2: one buffer holding `[5]`, written to a fresh
one-slot writer, then the caller's buffer is overwritten with `[9]`;
draining still delivers `[5]`. -/
theorem write_copies_payload_witness :
    (hDrainAll (mutateBuf (hWrite [[5]] ⟨[], 1, false, []⟩ 0).heap 0 [9])
        (hWrite [[5]] ⟨[], 1, false, []⟩ 0).st).received = [[5]] :=
  ((write_copies_payload [[5]] ⟨[], 1, false, []⟩ 0 [9] (by decide) (by decide)).1
      (by decide)).2.2

end AsyncHeap

namespace LoggerSM

/-- The `io.Writer` held in `Logger.writer`: either a raw sink
(identified by an index into the logger state's sink table) or an
`*async.AsyncWriter` value wrapping a target writer, with the data the
Go object holds — its buffer capacity, queued payloads and closed flag.
The Go type assertion `l.writer.(*async.AsyncWriter)` becomes a match on
the constructor. -/
inductive GoWriter where
  | raw (id : Nat)
  | asyncW (target : GoWriter) (bufSize : Nat) (queue : List (List Nat)) (closed : Bool)
deriving DecidableEq, Repr

/-- Logger output state: the active writer plus the contents every raw
sink has received (bytes, in order, indexed by sink id). -/
structure LoggerM where
  writer : GoWriter
  sinks : List (List Nat)
deriving DecidableEq, Repr

/-- Append bytes to a raw sink's contents. -/
def sinkWrite (sinks : List (List Nat)) (id : Nat) (p : List Nat) : List (List Nat) :=
  sinks.set id (sinks.getD id [] ++ p)

/-- Write a payload through a `GoWriter` (the logger's dispatcher ends in
`fmt.Fprint(w, ...)`, i.e. a `w.Write` call): a raw sink receives the
bytes at once; an open `AsyncWriter` enqueues when its channel has room
and otherwise writes directly and synchronously to its target; a closed
one rejects the write with no effect (writer.go, lines 40-58). -/
def wrWriter : List (List Nat) → GoWriter → List Nat → GoWriter × List (List Nat)
  | sinks, .raw id, p => (.raw id, sinkWrite sinks id p)
  | sinks, .asyncW tgt bs q cl, p =>
      if cl then (.asyncW tgt bs q cl, sinks)
      else if q.length < bs then (.asyncW tgt bs (q ++ [p]) cl, sinks)
      else
        let r := wrWriter sinks tgt p
        (.asyncW r.1 bs q cl, r.2)

/-- Write a list of payloads in order (the drain loop of a synchronous
`Flush`). -/
def writeSeq (sinks : List (List Nat)) (w : GoWriter) :
    List (List Nat) → GoWriter × List (List Nat)
  | [] => (w, sinks)
  | p :: ps =>
      let r := wrWriter sinks w p
      writeSeq r.2 r.1 ps

/-- Buffer-size normalization of `NewAsyncWriter` (writer.go, lines
22-24). -/
def normBuf (b : Int) : Nat := if b ≤ 0 then 100 else b.toNat

/-- The Go type assertion `_, ok := w.(*async.AsyncWriter)`. -/
def isAsyncW : GoWriter → Bool
  | .asyncW .. => true
  | .raw _ => false

/-- `Logger.SetOutput` (logger.go, lines 182-184): replace the active
writer unconditionally. -/
def setOutput (l : LoggerM) (id : Nat) : LoggerM :=
  { l with writer := .raw id }

/-- `Logger.SetAsyncOutput` (logger.go, lines 191-197): if the current
writer is an `AsyncWriter`, `l.writer = writer` stores the given raw
sink itself; otherwise the sink is wrapped in a fresh `AsyncWriter`. -/
def setAsyncOutput (l : LoggerM) (id : Nat) (b : Int) : LoggerM :=
  if isAsyncW l.writer then { l with writer := .raw id }
  else { l with writer := .asyncW (.raw id) (normBuf b) [] false }

/-- `Logger.SetAsync` (logger.go, lines 204-208): wrap the current
writer in a fresh `AsyncWriter` unless it already is one. -/
def setAsync (l : LoggerM) (b : Int) : LoggerM :=
  if isAsyncW l.writer then l
  else { l with writer := .asyncW l.writer (normBuf b) [] false }

/-- `Logger.SetSync` (logger.go, lines 211-216): if the current writer
is an `AsyncWriter`, flush it synchronously — the graceful shutdown
drains every queued payload to its target in order unless it was already
closed (writer.go, lines 82-88 and 68-76) — then store its unwrapped
`Target()`; otherwise do nothing. -/
def setSync (l : LoggerM) : LoggerM :=
  match l.writer with
  | .asyncW tgt _ q cl =>
      if cl then { writer := tgt, sinks := l.sinks }
      else
        let r := writeSeq l.sinks tgt q
        { writer := r.1, sinks := r.2 }
  | .raw id => { l with writer := .raw id }

/-- A log emission reaching the active writer. -/
def logWrite (l : LoggerM) (p : List Nat) : LoggerM :=
  let r := wrWriter l.sinks l.writer p
  { writer := r.1, sinks := r.2 }

/-- The output-transition calls a caller can make on a logger, with raw
sinks as arguments (as in the spec's transition table). -/
inductive LOp where
  | setOutput (id : Nat)
  | setAsyncOutput (id : Nat) (b : Int)
  | setAsync (b : Int)
  | setSync
deriving DecidableEq, Repr

def applyOp (l : LoggerM) : LOp → LoggerM
  | .setOutput id => setOutput l id
  | .setAsyncOutput id b => setAsyncOutput l id b
  | .setAsync b => setAsync l b
  | .setSync => setSync l

def applyOps (l : LoggerM) : List LOp → LoggerM
  | [] => l
  | o :: os => applyOps (applyOp l o) os

/-- The active writer is a raw sink or a single `AsyncWriter` wrapping a
raw sink — never a nested chain. -/
def notNested : GoWriter → Bool
  | .raw _ => true
  | .asyncW (.raw _) _ _ _ => true
  | .asyncW (.asyncW ..) _ _ _ => false

theorem wrWriter_raw (sinks : List (List Nat)) (id : Nat) (p : List Nat) :
    wrWriter sinks (.raw id) p = (.raw id, sinkWrite sinks id p) := rfl

theorem writeSeq_raw (sinks : List (List Nat)) (id : Nat) (ps : List (List Nat)) :
    (writeSeq sinks (.raw id) ps).1 = .raw id := by
  induction ps generalizing sinks with
  | nil => rfl
  | cons p ps ih => simpa [writeSeq, wrWriter_raw] using ih _

theorem applyOp_notNested (l : LoggerM) (o : LOp)
    (h : notNested l.writer = true) :
    notNested (applyOp l o).writer = true := by
  obtain ⟨w, sinks⟩ := l
  cases o with
  | setOutput id => rfl
  | setAsyncOutput id b =>
    cases w with
    | raw wid => rfl
    | asyncW tgt bs q cl => rfl
  | setAsync b =>
    cases w with
    | raw wid => rfl
    | asyncW tgt bs q cl => exact h
  | setSync =>
    cases w with
    | raw wid => rfl
    | asyncW tgt bs q cl =>
      cases tgt with
      | raw tid =>
        cases cl with
        | true => rfl
        | false =>
          show notNested (writeSeq sinks (.raw tid) q).1 = true
          rw [writeSeq_raw]
          rfl
      | asyncW t2 b2 q2 c2 => simp [notNested] at h

/-- C7: after any sequence of `SetOutput`, `SetAsyncOutput`, `SetAsync`
and `SetSync` calls on a logger whose active sink satisfies the
invariant, the active sink is still either exactly one raw sink or
exactly one `AsyncWriter` wrapping a raw sink — never nested writers;
and `SetAsync` is a no-op whenever the current sink is already an
`AsyncWriter`. -/
theorem transitions_never_nest (l : LoggerM) (ops : List LOp)
    (h : notNested l.writer = true) :
    notNested (applyOps l ops).writer = true
  ∧ (∀ (tgt : GoWriter) (bs : Nat) (q : List (List Nat)) (cl : Bool)
        (sinks : List (List Nat)) (b : Int),
      setAsync ⟨.asyncW tgt bs q cl, sinks⟩ b = ⟨.asyncW tgt bs q cl, sinks⟩) := by
  constructor
  · induction ops generalizing l with
    | nil => exact h
    | cons o os ih => exact ih (applyOp l o) (applyOp_notNested l o h)
  · intro tgt bs q cl sinks b
    rfl

/-- Witness for C7: the state machine applied from a fresh logger on a
concrete transition sequence. -/
theorem transitions_never_nest_witness :
    notNested (applyOps ⟨.raw 0, [[], []]⟩
      [.setAsync 5, .setAsync 7, .setAsyncOutput 1 3, .setAsync 2, .setSync]).writer
      = true :=
  (transitions_never_nest ⟨.raw 0, [[], []]⟩
    [.setAsync 5, .setAsync 7, .setAsyncOutput 1 3, .setAsync 2, .setSync]
    (by decide)).1

/-- C8: on a logger in Sync state with raw sink `s`, `SetAsync(N)`
followed by `SetSync()` is a wrap/flush/unwrap round trip that restores
the active sink to exactly `s` with the sink contents untouched; a
following write hands its bytes to `s` immediately, during the call; and
`SetSync()` with a raw active sink is a no-op. -/
theorem setAsync_setSync_roundtrip (s : Nat) (sinks : List (List Nat)) (b : Int)
    (p : List Nat) :
    setSync (setAsync ⟨.raw s, sinks⟩ b) = ⟨.raw s, sinks⟩
  ∧ logWrite ⟨.raw s, sinks⟩ p = ⟨.raw s, sinkWrite sinks s p⟩
  ∧ setSync ⟨.raw s, sinks⟩ = ⟨.raw s, sinks⟩ := by
  refine ⟨?_, ?_, ?_⟩
  · simp [setAsync, isAsyncW, setSync, writeSeq]
  · rfl
  · rfl

/-- C1 counterexample: starting from a Sync logger, a first
`SetAsyncOutput(sink 1, 10)` wraps sink 1 (Async state); the claim says a
second `SetAsyncOutput(sink 2, 10)` redirects that `AsyncWriter`'s
target to sink 2 keeping the writer, but on the code the active sink
after the second call is the raw sink 2 and no `AsyncWriter` at all. -/
theorem setAsyncOutput_redirect_counterexample :
    isAsyncW (setAsyncOutput ⟨.raw 0, [[], [], []]⟩ 1 10).writer = true
  ∧ isAsyncW (setAsyncOutput (setAsyncOutput ⟨.raw 0, [[], [], []]⟩ 1 10) 2 10).writer
      = false
  ∧ (setAsyncOutput (setAsyncOutput ⟨.raw 0, [[], [], []]⟩ 1 10) 2 10).writer
      = GoWriter.raw 2 := by
  decide

/-- C1 amended: when the current active sink is an `AsyncWriter`,
`SetAsyncOutput(sink, bufferSize)` stores the raw sink itself as the
active sink — the logger drops to Sync state, no new `AsyncWriter` is
created, and the previous one is left orphaned rather than having its
target redirected. -/
theorem setAsyncOutput_replaces_with_raw (tgt : GoWriter) (bs : Nat)
    (q : List (List Nat)) (cl : Bool) (sinks : List (List Nat)) (id : Nat) (b : Int) :
    setAsyncOutput ⟨.asyncW tgt bs q cl, sinks⟩ id b = ⟨.raw id, sinks⟩ := rfl

end LoggerSM

end Spec2Proof
